import Mathlib

/-!
Verification development for the Louvre batch fetcher
(`scripts/scrap_all_infos_works_of_art.py`).

The script fetches one JSON document per identifier from the museum API,
with a retry-and-backoff policy per identifier, a semaphore bounding
concurrent requests, fixed-size batches persisted to zero-padded CSV
artifacts, and a resume path that skips batches whose artifact exists.

The embedding below models the network as an oracle assigning an
`HttpResult` to every (url, attempt index) pair, the filesystem of
artifacts as a partial map from file names to row lists, and time
(backoff sleeps, inter-batch cooldown) as explicit accumulated counters.
-/

namespace Louvre

/-- Configured batch size (`BATCH_SIZE = 5000` in the script). -/
def BATCH_SIZE : Nat := 5000

/-- Configured semaphore capacity (`MAX_CONCURRENT_REQUESTS = 50`). -/
def MAX_CONCURRENT_REQUESTS : Nat := 50

/-- Configured per-request timeout in seconds (`REQUEST_TIMEOUT = 30`). -/
def REQUEST_TIMEOUT : Nat := 30

/-- A parsed JSON document, kept opaque. -/
abbrev Doc := Nat

/-- A resource identifier (relative url string from the input file). -/
abbrev Url := String

/-- Failure classification of one fetch attempt.  In the Python code each
class corresponds to one distinct logged branch of `fetch`; the value
returned to the caller is `None` for every failure class. -/
inductive FailureReason where
  | timeout
  | httpError (status : Nat)
  | contentTypeMismatch
  | transportError
  | unexpectedException
deriving DecidableEq

/-- Tagged outcome of one fetch attempt. -/
inductive FetchOutcome where
  | success (payload : Doc)
  | failure (reason : FailureReason)
deriving DecidableEq

/-- The value the Python `fetch` actually returns: the payload on success,
`None` on any failure. -/
def FetchOutcome.toOption : FetchOutcome → Option Doc
  | .success d => some d
  | .failure _ => none

/-- Raw observable behaviour of one HTTP GET: either a response arrived
(with status code, Content-Type header and parsed body), or the request
timed out, or a transport-level `aiohttp.ClientError` was raised, or some
other unexpected exception was raised. -/
inductive HttpResult where
  | response (status : Nat) (contentType : String) (body : Doc)
  | timedOut
  | clientError
  | unexpectedError
deriving DecidableEq

/-- `leadMatch n h` is true when `n` is an initial segment of `h`. -/
def leadMatch : List Char → List Char → Bool
  | [], _ => true
  | _ :: _, [] => false
  | a :: as, b :: bs => a = b && leadMatch as bs

/-- `hasSub n h` is true when `n` occurs contiguously inside `h`;
models the Python substring test `needle in haystack`. -/
def hasSub (needle : List Char) : List Char → Bool
  | [] => needle.isEmpty
  | c :: t => leadMatch needle (c :: t) || hasSub needle t

/-- The Content-Type check of `fetch`:
`'application/json' in response.headers.get('Content-Type', '')`. -/
def isJsonContentType (ct : String) : Bool :=
  hasSub "application/json".toList ct.toList

/-- `fetch` (lines 40-60): classifies one attempt.  A response with
status different from 200 is an HTTP error; a 200 response whose
Content-Type does not contain `application/json` is a content-type
mismatch; `asyncio.TimeoutError` is a timeout; `aiohttp.ClientError` is a
transport error; the final `except Exception` catch-all yields
`unexpectedException`.  Each failure branch logs its class and returns
`None`; the value seen by callers is `(fetch r).toOption`. -/
def fetch (r : HttpResult) : FetchOutcome :=
  match r with
  | .response status ct body =>
      if status ≠ 200 then .failure (.httpError status)
      else if ¬ isJsonContentType ct then .failure .contentTypeMismatch
      else .success body
  | .timedOut => .failure .timeout
  | .clientError => .failure .transportError
  | .unexpectedError => .failure .unexpectedException

/-- Observable result of one `fetch_with_retry` call: the returned value,
the chronological list of backoff sleeps performed, and how many times
`fetch` was called. -/
structure RetryRun where
  result : Option Doc
  waits : List Nat
  calls : Nat
deriving DecidableEq

/-- The body of `fetch_with_retry` (lines 63-73): iterate over the attempt
indices `range(retries)`; return the first non-`None` result; after a
failed attempt that is not the last one, sleep `2 ** attempt` seconds. -/
def retryLoop (net : Nat → HttpResult) (retries : Nat) : List Nat → RetryRun
  | [] => ⟨none, [], 0⟩
  | attempt :: rest =>
    match (fetch (net attempt)).toOption with
    | some d => ⟨some d, [], 1⟩
    | none =>
      let r := retryLoop net retries rest
      if attempt < retries - 1 then ⟨r.result, 2 ^ attempt :: r.waits, r.calls + 1⟩
      else ⟨r.result, r.waits, r.calls + 1⟩

/-- `fetch_with_retry(session, url, semaphore, retries=3)`.  The Python
parameter is an `int`; `range(retries)` is empty for every non-positive
value, which `Int.toNat` mirrors. -/
def fetch_with_retry (net : Nat → HttpResult) (retries : Int) : RetryRun :=
  retryLoop net retries.toNat (List.range retries.toNat)

/-- Zero padding as in the format string `f"{n:04d}"`: pad the decimal
representation on the left with '0' up to the requested width. -/
def zeroPad (width : Nat) (s : String) : String :=
  String.mk (List.replicate (width - s.length) '0') ++ s

/-- Artifact file name for a batch: `f"batch_{batch_number:04d}.csv"`. -/
def artifactName (n : Nat) : String :=
  "batch_" ++ zeroPad 4 (toString n) ++ ".csv"

/-- The output directory of batch artifacts, as a partial map from file
name to the list of rows stored in the file. -/
abbrev FS := String → Option (List Doc)

/-- `save_batch(data, batch_number)` (lines 96-116): if the result list is
empty, or all its entries are `None`, log a warning and return `None`
without touching the filesystem; otherwise drop the `None` entries,
write the surviving rows to `batch_{n:04d}.csv` (the `to_csv` call
replaces any existing file of that name) and return the rows. -/
def save_batch (data : List (Option Doc)) (n : Nat) (fs : FS) :
    FS × Option (List Doc) :=
  if data.isEmpty then (fs, none)
  else
    let filtered := data.filterMap id
    if filtered.isEmpty then (fs, none)
    else ((fun name => if name = artifactName n then some filtered else fs name),
          some filtered)

/-- Full request url built in `fetch_batch`:
`f"https://collections.louvre.fr{url}.json"`. -/
def fullUrl (u : Url) : Url :=
  "https://collections.louvre.fr" ++ u ++ ".json"

/-- `fetch_batch(urls, batch_number)` (lines 76-93): one retry-wrapped
task per url, gathered in task order.  Returns the ordered result list
and the total number of `fetch` calls issued (network calls). -/
def fetch_batch (net : Url → Nat → HttpResult) (urls : List Url) :
    List (Option Doc) × Nat :=
  let runs := urls.map (fun u => fetch_with_retry (net (fullUrl u)) 3)
  (runs.map RetryRun.result, (runs.map RetryRun.calls).sum)

/-- `num_batches = (total_urls + BATCH_SIZE - 1) // BATCH_SIZE`. -/
def numBatches (total B : Nat) : Nat := (total + B - 1) / B

/-- The slice of urls given to batch index `i` (0-based):
`df_urls['url'][i*B : min((i+1)*B, total)]`. -/
def batchSlice (urls : List Url) (B i : Nat) : List Url :=
  (urls.drop (i * B)).take (min ((i + 1) * B) urls.length - i * B)

/-- Accumulated observable state of one coordinator run: the artifact
directory, the number of network calls issued, and the total inter-batch
cooldown slept (in seconds). -/
structure RunState where
  fs : FS
  netCalls : Nat
  cooldown : Nat

/-- One iteration of the loop in `process_all_batches` (lines 127-151):
fetch the batch slice, save it as batch `i+1`, and sleep 5 seconds
when this is not the final batch. -/
def runStep (B : Nat) (net : Url → Nat → HttpResult) (urls : List Url)
    (nb : Nat) (st : RunState) (i : Nat) : RunState :=
  let fb := fetch_batch net (batchSlice urls B i)
  let sv := save_batch fb.1 (i + 1) st.fs
  { fs := sv.1
    netCalls := st.netCalls + fb.2
    cooldown := st.cooldown + (if i < nb - 1 then 5 else 0) }

/-- `process_all_batches()` (lines 119-153): iterate over every batch
index in order, fetching and saving each one.  There is no
artifact-existence check on this path. -/
def process_all_batches (B : Nat) (net : Url → Nat → HttpResult)
    (urls : List Url) (fs0 : FS) : RunState :=
  let nb := numBatches urls.length B
  (List.range nb).foldl (runStep B net urls nb) ⟨fs0, 0, 0⟩

/-- One iteration of the loop in `resume_from_batch` (lines 205-225): if
the artifact for batch `i+1` already exists, `continue` — skipping the
fetch, the save and also the 5 second pause; otherwise behave as one
iteration of `process_all_batches`. -/
def resumeStep (B : Nat) (net : Url → Nat → HttpResult) (urls : List Url)
    (nb : Nat) (st : RunState) (i : Nat) : RunState :=
  if (st.fs (artifactName (i + 1))).isSome then st
  else runStep B net urls nb st i

/-- `resume_from_batch(start_batch)` (lines 199-225): iterate over
`range(start_batch - 1, num_batches)` with the artifact-existence
check before each batch. -/
def resume_from_batch (B : Nat) (net : Url → Nat → HttpResult)
    (urls : List Url) (start : Nat) (fs0 : FS) : RunState :=
  let nb := numBatches urls.length B
  (List.range' (start - 1) (nb - (start - 1))).foldl
    (resumeStep B net urls nb) ⟨fs0, 0, 0⟩

/-- `asyncio.gather` result assembly: given the pool of completed tasks
as (task index, value) pairs in arbitrary completion order, the gathered
list reads off the value of task `i` at position `i`. -/
def gather (n : Nat) (comp : List (Nat × Option Doc)) :
    List (Option (Option Doc)) :=
  (List.range n).map (fun i => (comp.find? (fun p => p.1 == i)).map Prod.snd)

/-! ### Concurrency trace model for the semaphore bound

Each retry-wrapped task is abstracted to its sequence of scheduler-visible
events: acquiring and releasing the semaphore, starting and finishing the
network call (which happens strictly inside the `async with semaphore`
block in `fetch`), and backoff sleeps (which happen in `fetch_with_retry`,
outside `fetch` and hence outside the semaphore block).  An interleaving
of tasks is valid when an acquire only fires while fewer than `C` permits
are held — exactly the blocking behaviour of `asyncio.Semaphore(C)`. -/

/-- Scheduler-visible events of one task. -/
inductive Ev where
  | acquire
  | callStart
  | callEnd
  | release
  | sleep (n : Nat)
deriving DecidableEq

/-- Where a task currently stands with respect to the semaphore. -/
inductive Phase where
  | outside
  | holding
  | inCall
deriving DecidableEq

/-- Legal event for a task in a given phase, and the phase after it.
A network call can only start while the permit is held; a sleep is only
legal while no permit is held. -/
def stepPhase : Phase → Ev → Option Phase
  | .outside, .acquire => some .holding
  | .outside, .sleep _ => some .outside
  | .holding, .callStart => some .inCall
  | .inCall, .callEnd => some .holding
  | .holding, .release => some .outside
  | _, _ => none

/-- A task trace is well formed from a phase when every event is legal in
sequence. -/
def wfB : Phase → List Ev → Bool
  | _, [] => true
  | p, e :: t =>
    match stepPhase p e with
    | some q => wfB q t
    | none => false

/-- Events of one `fetch` attempt: the semaphore block wraps the call. -/
def attemptEvents : List Ev := [.acquire, .callStart, .callEnd, .release]

/-- Event trace of `fetch_with_retry`, driven by which attempts succeed:
one attempt block per loop iteration, stopping at the first success,
with a backoff sleep after every failed non-final attempt. -/
def retryTraceLoop (ok : Nat → Bool) (retries : Nat) : List Nat → List Ev
  | [] => []
  | attempt :: rest =>
    attemptEvents ++
      (if ok attempt then []
       else (if attempt < retries - 1 then [Ev.sleep (2 ^ attempt)] else []) ++
         retryTraceLoop ok retries rest)

/-- Full event trace of `fetch_with_retry(..., retries)`. -/
def retryTrace (ok : Nat → Bool) (retries : Nat) : List Ev :=
  retryTraceLoop ok retries (List.range retries)

/-- A task in flight: its current phase and its remaining events. -/
structure Task where
  phase : Phase
  rest : List Ev

/-- A task holds a permit when it is between acquire and release. -/
def isHolding (t : Task) : Bool :=
  match t.phase with
  | .outside => false
  | _ => true

/-- A task has an active network call when it is between callStart and
callEnd. -/
def isInCall (t : Task) : Bool :=
  match t.phase with
  | .inCall => true
  | _ => false

/-- Number of permits currently held. -/
def holders (ts : List Task) : Nat := ts.countP isHolding

/-- Number of network calls currently active. -/
def activeCalls (ts : List Task) : Nat := ts.countP isInCall

/-- One scheduler step with semaphore capacity `C`: some task performs its
next event, which must be legal for its phase, and an acquire only fires
while fewer than `C` permits are held. -/
inductive SchedStep (C : Nat) : List Task → List Task → Prop where
  | mk (pre post : List Task) (p : Phase) (e : Ev) (r : List Ev) (q : Phase)
      (hq : stepPhase p e = some q)
      (hacq : e = Ev.acquire → holders (pre ++ ⟨p, e :: r⟩ :: post) < C) :
      SchedStep C (pre ++ ⟨p, e :: r⟩ :: post) (pre ++ ⟨q, r⟩ :: post)

/-- Task pool at batch start: one task per trace, none holding a permit
(the semaphore is created fresh inside `fetch_batch`, so no permit is
carried across batch boundaries). -/
def initTasks (traces : List (List Ev)) : List Task :=
  traces.map (fun tr => ⟨Phase.outside, tr⟩)

/-! ### Concrete fixtures for witnesses and counterexamples -/

/-- A network oracle that always answers 200 with JSON body 1. -/
def netOK : Url → Nat → HttpResult :=
  fun _ _ => .response 200 "application/json" 1

/-- The empty output directory. -/
def emptyFS : FS := fun _ => none

/-- A network oracle that fails (timeout) on attempts 0 and 1 and answers
200 with JSON body 7 on attempt 2. -/
def netFlaky : Nat → HttpResult :=
  fun k => if k < 2 then .timedOut else .response 200 "application/json" 7

/-- An output directory already holding an artifact for batch 1 with a
single row 5. -/
def fsPrev : FS :=
  fun name => if name = artifactName 1 then some [5] else none

/-! ## Claim theorems -/

/-- C3 (amended): `fetch` is total and classifies every attempt by a
typed tagged outcome: `Failure (httpError s)` exactly when the status
`s` is not 200 (the code tests `response.status != 200`, so the other
2xx success codes are also classified as HTTP errors — this is the one
correction to the claim, which said "non-2xx");
`Failure contentTypeMismatch` when the status is 200 but the
Content-Type does not contain `application/json`; `Failure timeout` on a
timeout; `Failure transportError` on a transport-level exception; any
other unexpected exception is also caught and converted to a typed
failure; otherwise `Success` with the parsed document.  No input
escapes this classification, so nothing is raised past the boundary. -/
theorem fetch_total_classification :
    ∀ (s : Nat) (ct : String) (b : Doc),
      (s ≠ 200 → fetch (.response s ct b) = .failure (.httpError s)) ∧
      (s = 200 → isJsonContentType ct = false →
        fetch (.response s ct b) = .failure .contentTypeMismatch) ∧
      (s = 200 → isJsonContentType ct = true →
        fetch (.response s ct b) = .success b) ∧
      fetch .timedOut = .failure .timeout ∧
      fetch .clientError = .failure .transportError ∧
      fetch .unexpectedError = .failure .unexpectedException ∧
      (∀ r : HttpResult,
        (∃ d, fetch r = .success d) ∨ (∃ e, fetch r = .failure e)) := by
  intro s ct b
  refine ⟨fun h => by simp [fetch, h], fun hs hct => by simp [fetch, hs, hct],
    fun hs hct => by simp [fetch, hs, hct], rfl, rfl, rfl, ?_⟩
  intro r
  cases r with
  | response s2 ct2 b2 =>
    by_cases hs : s2 = 200
    · by_cases hct : isJsonContentType ct2
      · exact Or.inl ⟨b2, by simp [fetch, hs, hct]⟩
      · exact Or.inr ⟨.contentTypeMismatch, by simp [fetch, hs, hct]⟩
    · exact Or.inr ⟨.httpError s2, by simp [fetch, hs]⟩
  | timedOut => exact Or.inr ⟨.timeout, rfl⟩
  | clientError => exact Or.inr ⟨.transportError, rfl⟩
  | unexpectedError => exact Or.inr ⟨.unexpectedException, rfl⟩

/-- Witness for C3 at a concrete input: a 404 response is classified as
an HTTP error. -/
theorem fetch_total_classification_witness :
    fetch (.response 404 "application/json" 0) = .failure (.httpError 404) :=
  (fetch_total_classification 404 "application/json" 0).1 (by decide)

/-- Counterexample for C3 as stated: status 201 is a 2xx success code
with a JSON Content-Type, so the claim requires `Success`, but the code
tests `response.status != 200` and classifies it as an HTTP error. -/
theorem fetch_status201_cex :
    fetch (.response 201 "application/json" 9) = .failure (.httpError 201) ∧
    200 ≤ 201 ∧ 201 < 300 ∧ isJsonContentType "application/json" = true := by
  decide

/-- C2: retry policy of `fetch_with_retry` with the default budget of 3:
at most 3 `fetch` calls; the first successful attempt `k` is returned at
once with exactly `k + 1` calls and backoff sleeps `2 ^ 0, …, 2 ^ (k-1)`
between consecutive attempts; when all 3 attempts fail the returned
value is the failure value `none` after sleeps `[1, 2]` — no sleep after
the final attempt; an attempt sequence fail, fail, success yields the
success with exactly `2 ^ 0 + 2 ^ 1 = 3` total units of backoff. -/
theorem fetch_with_retry_policy (net : Nat → HttpResult) :
    (fetch_with_retry net 3).calls ≤ 3 ∧
    (∀ k d, k < 3 → (∀ j, j < k → (fetch (net j)).toOption = none) →
      (fetch (net k)).toOption = some d →
      fetch_with_retry net 3 =
        ⟨some d, (List.range k).map (fun j => 2 ^ j), k + 1⟩) ∧
    ((∀ j, j < 3 → (fetch (net j)).toOption = none) →
      fetch_with_retry net 3 = ⟨none, [1, 2], 3⟩) ∧
    ((fetch (net 0)).toOption = none → (fetch (net 1)).toOption = none →
      ∀ d, (fetch (net 2)).toOption = some d →
        (fetch_with_retry net 3).result = some d ∧
        (fetch_with_retry net 3).waits.sum = 3) := by
  have hr : fetch_with_retry net 3 = retryLoop net 3 [0, 1, 2] := rfl
  rcases o0 : (fetch (net 0)).toOption with _ | d0
  · rcases o1 : (fetch (net 1)).toOption with _ | d1
    · rcases o2 : (fetch (net 2)).toOption with _ | d2
      · refine ⟨by simp [hr, retryLoop, o0, o1, o2], ?_, ?_, ?_⟩
        · intro k d hk hprev hsucc
          interval_cases k
          · rw [o0] at hsucc; exact absurd hsucc (by simp)
          · rw [o1] at hsucc; exact absurd hsucc (by simp)
          · rw [o2] at hsucc; exact absurd hsucc (by simp)
        · intro _; simp [hr, retryLoop, o0, o1, o2]
        · intro _ _ d hsucc; exact absurd hsucc (by simp)
      · refine ⟨by simp [hr, retryLoop, o0, o1, o2], ?_, ?_, ?_⟩
        · intro k d hk hprev hsucc
          interval_cases k
          · rw [o0] at hsucc; exact absurd hsucc (by simp)
          · rw [o1] at hsucc; exact absurd hsucc (by simp)
          · rw [o2] at hsucc
            simp only [Option.some.injEq] at hsucc
            subst hsucc
            simp [hr, retryLoop, o0, o1, o2, List.range_succ]
        · intro hall
          have := hall 2 (by omega)
          rw [o2] at this; exact absurd this (by simp)
        · intro _ _ d hsucc
          simp only [Option.some.injEq] at hsucc
          subst hsucc
          simp [hr, retryLoop, o0, o1, o2]
    · refine ⟨by simp [hr, retryLoop, o0, o1], ?_, ?_, ?_⟩
      · intro k d hk hprev hsucc
        interval_cases k
        · rw [o0] at hsucc; exact absurd hsucc (by simp)
        · rw [o1] at hsucc
          simp only [Option.some.injEq] at hsucc
          subst hsucc
          simp [hr, retryLoop, o0, o1, List.range_succ]
        · have := hprev 1 (by omega)
          rw [o1] at this; exact absurd this (by simp)
      · intro hall
        have := hall 1 (by omega)
        rw [o1] at this; exact absurd this (by simp)
      · intro _ h1
        exact absurd h1 (by simp)
  · refine ⟨by simp [hr, retryLoop, o0], ?_, ?_, ?_⟩
    · intro k d hk hprev hsucc
      interval_cases k
      · rw [o0] at hsucc
        simp only [Option.some.injEq] at hsucc
        subst hsucc
        simp [hr, retryLoop, o0]
      · have := hprev 0 (by omega)
        rw [o0] at this; exact absurd this (by simp)
      · have := hprev 0 (by omega)
        rw [o0] at this; exact absurd this (by simp)
    · intro hall
      have := hall 0 (by omega)
      rw [o0] at this; exact absurd this (by simp)
    · intro h0
      exact absurd h0 (by simp)

/-- Witness for C2: a network that times out twice then answers 200/JSON
is reported successful with backoff sleeps `[1, 2]` and 3 calls. -/
theorem fetch_with_retry_policy_witness :
    fetch_with_retry netFlaky 3 = ⟨some 7, [1, 2], 3⟩ :=
  (fetch_with_retry_policy netFlaky).2.1 2 7 (by decide)
    (by intro j hj; interval_cases j <;> rfl) rfl

/-- C10: a non-positive retry budget makes `fetch_with_retry` a no-op:
`range(retries)` is empty, so there is no fetch attempt, no backoff
sleep, and the terminal failure value `None` is returned. -/
theorem fetch_with_retry_zero_budget :
    ∀ (net : Nat → HttpResult) (r : Int), r ≤ 0 →
      fetch_with_retry net r = ⟨none, [], 0⟩ := by
  intro net r hr
  have h0 : r.toNat = 0 := Int.toNat_of_nonpos hr
  simp [fetch_with_retry, h0, retryLoop]

/-- Witness for C10 at budget `-2`. -/
theorem fetch_with_retry_zero_budget_witness :
    fetch_with_retry netFlaky (-2) = ⟨none, [], 0⟩ :=
  fetch_with_retry_zero_budget netFlaky (-2) (by decide)

/-- When every entry of the batch result failed, `save_batch` creates no
artifact and returns `None`. -/
theorem save_batch_none_of_empty
    (data : List (Option Doc)) (n : Nat) (fs : FS)
    (h : data.filterMap id = []) : save_batch data n fs = (fs, none) := by
  rcases data with _ | ⟨a, t⟩
  · simp [save_batch]
  · simp only [save_batch, List.isEmpty_cons, Bool.false_eq_true, if_false, h,
      List.isEmpty_nil, if_true]

/-- Whenever `save_batch` reports rows, they are exactly the successful
entries in order. -/
theorem save_batch_rows_eq
    (data : List (Option Doc)) (n : Nat) (fs : FS) :
    ∀ rows, (save_batch data n fs).2 = some rows →
      rows = data.filterMap id := by
  intro rows hrows
  rcases data with _ | ⟨a, t⟩
  · simp [save_batch] at hrows
  · by_cases hf : (a :: t).filterMap id = []
    · simp [save_batch, hf] at hrows
    · simp only [save_batch, List.isEmpty_cons, Bool.false_eq_true, if_false,
        List.isEmpty_iff, hf, if_false, Option.some.injEq] at hrows
      exact hrows.symm

/-- C6: `save_batch` filters out every failed entry — a `None` outcome
contributes no row, the persisted rows being exactly
`data.filterMap id` — and when zero successes remain it returns `None`
and leaves the output directory untouched (no artifact is created). -/
theorem save_batch_empty_and_filter
    (data : List (Option Doc)) (n : Nat) (fs : FS) :
    (data.filterMap id = [] → save_batch data n fs = (fs, none)) ∧
    (∀ rows, (save_batch data n fs).2 = some rows →
      rows = data.filterMap id) :=
  ⟨save_batch_none_of_empty data n fs, save_batch_rows_eq data n fs⟩

/-- Witness for C6: a batch of one failure and one success keeps only the
success; a batch of only failures creates nothing. -/
theorem save_batch_empty_and_filter_witness :
    save_batch [none, none] 1 emptyFS = (emptyFS, none) ∧
    ∀ rows, (save_batch [none, some 4] 1 emptyFS).2 = some rows →
      rows = [4] :=
  ⟨(save_batch_empty_and_filter [none, none] 1 emptyFS).1 rfl,
   (save_batch_empty_and_filter [none, some 4] 1 emptyFS).2⟩

/-- C5 (amended): `save_batch` writes the filtered rows to the artifact
named deterministically from the zero-padded sequence number and leaves
every other file unchanged, but it overwrites unconditionally: the
`to_csv` call performs no existence check, so an existing artifact for
the same sequence number is replaced by the new rows.  The only
no-overwrite protection in the program is the coordinator resume path,
which skips a batch (fetch and save) when its artifact exists. -/
theorem save_batch_unconditional_write
    (data : List (Option Doc)) (n : Nat) (fs : FS)
    (h : data.filterMap id ≠ []) :
    (save_batch data n fs).1 (artifactName n) = some (data.filterMap id) ∧
    (∀ name, name ≠ artifactName n →
      (save_batch data n fs).1 name = fs name) := by
  rcases data with _ | ⟨a, t⟩
  · simp at h
  · constructor
    · simp only [save_batch, List.isEmpty_cons, Bool.false_eq_true, if_false,
        List.isEmpty_iff, h, if_true, if_false]
    · intro name hname
      simp only [save_batch, List.isEmpty_cons, Bool.false_eq_true, if_false,
        List.isEmpty_iff, h, if_false, hname]

/-- Witness for C5's amended theorem at sequence number 2. -/
theorem save_batch_unconditional_write_witness :
    (save_batch [some 7] 2 emptyFS).1 (artifactName 2) = some [7] :=
  (save_batch_unconditional_write [some 7] 2 emptyFS (by decide)).1

/-- Counterexample for C5 as stated: an artifact for sequence number 1
holding row 5 already exists, yet persisting a batch with row 7 changes
the content of that artifact to `[7]` — re-running a finished batch is
not a no-op at the writer layer. -/
theorem save_batch_overwrite_cex :
    fsPrev (artifactName 1) = some [5] ∧
    (save_batch [some 7] 1 fsPrev).1 (artifactName 1) = some [7] := by
  decide

/-- A fold whose step function fixes the initial state returns it
unchanged. -/
theorem foldl_fixed {α β : Type} (f : α → β → α) (a : α) :
    ∀ l : List β, (∀ b ∈ l, f a b = a) → l.foldl f a = a := by
  intro l
  induction l with
  | nil => intro _; rfl
  | cons x t ih =>
    intro h
    have hx : f a x = a := h x (List.mem_cons_self x t)
    rw [List.foldl_cons, hx]
    exact ih (fun b hb => h b (List.mem_cons_of_mem x hb))

/-- Each iteration of the `process_all_batches` loop adds exactly 5
seconds of cooldown when its index is not the final one. -/
theorem foldl_runStep_cooldown (B : Nat) (net : Url → Nat → HttpResult)
    (urls : List Url) (nb : Nat) :
    ∀ (l : List Nat) (st : RunState),
      (l.foldl (runStep B net urls nb) st).cooldown =
        st.cooldown + 5 * l.countP (fun i => decide (i < nb - 1)) := by
  intro l
  induction l with
  | nil => intro st; simp
  | cons x t ih =>
    intro st
    rw [List.foldl_cons, ih, List.countP_cons]
    by_cases hx : x < nb - 1 <;> · simp [runStep, hx]; try omega

/-- Counting the indices below `k` in `range n`. -/
theorem countP_range_lt (k : Nat) :
    ∀ n, (List.range n).countP (fun i => decide (i < k)) = min n k := by
  intro n
  induction n with
  | zero => simp
  | succ m ih =>
    rw [List.range_succ, List.countP_append, ih, List.countP_cons]
    by_cases hm : m < k <;> simp [hm] <;> omega

/-- C1 (amended): the resume path is idempotent: when the artifact of
every batch is already present in the output directory,
`resume_from_batch` starting at batch 1 short-circuits every batch —
zero network calls, zero cooldown, and the output directory unchanged.
(The default full-run path `process_all_batches` performs no such
artifact-existence check; see the counterexample theorem.) -/
theorem resume_skips_completed :
    ∀ (B : Nat) (net : Url → Nat → HttpResult) (urls : List Url) (fs0 : FS),
      (∀ i, i < numBatches urls.length B →
        (fs0 (artifactName (i + 1))).isSome) →
      resume_from_batch B net urls 1 fs0 = ⟨fs0, 0, 0⟩ := by
  intro B net urls fs0 hall
  unfold resume_from_batch
  refine foldl_fixed _ _ _ ?_
  intro i hi
  have hmem := (List.mem_range'_1).mp hi
  have hilt : i < numBatches urls.length B := by omega
  simp only [resumeStep, hall i hilt, if_true]

/-- Witness for C1's amended theorem: one batch, its artifact present,
resume makes no network call and leaves the directory unchanged. -/
theorem resume_skips_completed_witness :
    resume_from_batch BATCH_SIZE netOK ["a"] 1 fsPrev = ⟨fsPrev, 0, 0⟩ :=
  resume_skips_completed BATCH_SIZE netOK ["a"] fsPrev
    (by intro i hi; have h1 : i < 1 := hi; interval_cases i; decide)

/-- Counterexample for C1 as stated: the default entry point
`process_all_batches` consults no artifact-existence check.  After a
completed first run over one identifier (its artifact is present), a
second run of `process_all_batches` over the same list still issues one
network call instead of zero. -/
theorem second_run_refetches_cex :
    ((process_all_batches BATCH_SIZE netOK ["a"] emptyFS).fs
        (artifactName 1)).isSome = true ∧
    (process_all_batches BATCH_SIZE netOK ["a"]
        (process_all_batches BATCH_SIZE netOK ["a"] emptyFS).fs).netCalls
      = 1 := by
  decide

/-- C8 (amended): in the full-run path every batch except the final one
is followed by exactly 5 seconds of cooldown (total
`5 * (numBatches - 1)`); in the resume path, however, a skipped batch
does `continue` before the sleep, so it is followed by no cooldown — in
particular, when every batch is already complete the whole resume run
sleeps 0 seconds. -/
theorem cooldown_schedule :
    ∀ (B : Nat) (net : Url → Nat → HttpResult) (urls : List Url) (fs0 : FS),
      (process_all_batches B net urls fs0).cooldown =
        5 * (numBatches urls.length B - 1) ∧
      ((∀ i, i < numBatches urls.length B →
          (fs0 (artifactName (i + 1))).isSome) →
        (resume_from_batch B net urls 1 fs0).cooldown = 0) := by
  intro B net urls fs0
  constructor
  · unfold process_all_batches
    rw [foldl_runStep_cooldown, countP_range_lt]
    have hm : min (numBatches urls.length B) (numBatches urls.length B - 1)
        = numBatches urls.length B - 1 := by omega
    rw [hm]
    exact Nat.zero_add _
  · intro hall
    unfold resume_from_batch
    have hfix := foldl_fixed
      (resumeStep B net urls (numBatches urls.length B))
      (⟨fs0, 0, 0⟩ : RunState)
      (List.range' (1 - 1) (numBatches urls.length B - (1 - 1)))
      (by
        intro i hi
        have hmem := (List.mem_range'_1).mp hi
        have hilt : i < numBatches urls.length B := by omega
        simp only [resumeStep, hall i hilt, if_true])
    rw [hfix]

/-- Witness for C8's amended theorem. -/
theorem cooldown_schedule_witness :
    (process_all_batches BATCH_SIZE netOK ["a"] emptyFS).cooldown =
      5 * (numBatches 1 BATCH_SIZE - 1) ∧
    (resume_from_batch BATCH_SIZE netOK ["a"] 1 fsPrev).cooldown = 0 :=
  ⟨(cooldown_schedule BATCH_SIZE netOK ["a"] emptyFS).1,
   (cooldown_schedule BATCH_SIZE netOK ["a"] fsPrev).2
     (by intro i hi; have h1 : i < 1 := hi; interval_cases i; decide)⟩

/-- Counterexample for C8 as stated: two batches, batch 1 already has an
artifact and batch 2 does not.  Batch 1 is skipped and is not final, so
the claim requires a 5 second cooldown after it, but the code performs
`continue` before the sleep: the whole run sleeps 0 seconds. -/
theorem resume_skip_no_cooldown_cex :
    numBatches (List.length ["a", "b"]) 1 = 2 ∧
    (fsPrev (artifactName 1)).isSome = true ∧
    (fsPrev (artifactName 2)).isSome = false ∧
    (resume_from_batch 1 netOK ["a", "b"] 1 fsPrev).cooldown = 0 := by
  decide

/-- The first slice is the first `B` urls. -/
theorem batchSlice_zero (l : List Url) (B : Nat) :
    batchSlice l B 0 = l.take (min B l.length) := by
  simp [batchSlice]

/-- Later slices of `l` are earlier slices of `l` with its first `B`
urls removed. -/
theorem batchSlice_succ (l : List Url) (B i : Nat) (hBN : B ≤ l.length) :
    batchSlice l B (i + 1) = batchSlice (l.drop B) B i := by
  unfold batchSlice
  rw [List.length_drop, List.drop_drop]
  have e0 : B + i * B = (i + 1) * B := by ring
  rw [e0]
  have e1 : (i + 1 + 1) * B = i * B + B + B := by ring
  have e2 : (i + 1) * B = i * B + B := by ring
  have e3 : min ((i + 1 + 1) * B) l.length - (i + 1) * B
      = min ((i + 1) * B) (l.length - B) - i * B := by
    rw [e1, e2]; omega
  rw [e3]

/-- The length of slice `i`, matching the half-open index range
`[i*B, min((i+1)*B, N))`. -/
theorem batchSlice_length (urls : List Url) (B i : Nat) :
    (batchSlice urls B i).length =
      min ((i + 1) * B) urls.length - i * B := by
  unfold batchSlice
  rw [List.length_take, List.length_drop]
  have e : (i + 1) * B = i * B + B := by ring
  omega

/-- The slices of a url list, taken in order over all batch indices,
concatenate back to the whole list: no gaps, no overlaps. -/
theorem flatten_slices (B : Nat) (hB : 0 < B) :
    ∀ (N : Nat) (l : List Url), l.length ≤ N →
      ((List.range (numBatches l.length B)).map (batchSlice l B)).flatten
        = l := by
  intro N
  induction N with
  | zero =>
    intro l hl
    have h0 : l.length = 0 := by omega
    have hnil : l = [] := List.length_eq_zero.mp h0
    subst hnil
    have hz : numBatches 0 B = 0 := by
      unfold numBatches
      exact Nat.div_eq_of_lt (by omega)
    simp [hz]
  | succ n ih =>
    intro l hl
    rcases Nat.eq_zero_or_pos l.length with h0 | hpos
    · have hnil : l = [] := List.length_eq_zero.mp h0
      subst hnil
      have hz : numBatches 0 B = 0 := by
        unfold numBatches
        exact Nat.div_eq_of_lt (by omega)
      simp [hz]
    · by_cases hle : l.length ≤ B
      · have hnb : numBatches l.length B = 1 := by
          unfold numBatches
          apply Nat.div_eq_of_lt_le <;> omega
        rw [hnb]
        have hr1 : List.range 1 = [0] := rfl
        rw [hr1]
        simp only [List.map_cons, List.map_nil, List.flatten_cons,
          List.flatten_nil, List.append_nil]
        rw [batchSlice_zero]
        have hm : min B l.length = l.length := by omega
        rw [hm]
        exact List.take_length l
      · push_neg at hle
        have hBle : B ≤ l.length := by omega
        have hnb : numBatches l.length B
            = numBatches (l.length - B) B + 1 := by
          unfold numBatches
          have e : l.length + B - 1 = (l.length - B + B - 1) + B := by omega
          rw [e, Nat.add_div_right _ hB]
        rw [hnb, List.range_succ_eq_map]
        simp only [List.map_cons, List.flatten_cons, List.map_map]
        have hmap : (List.range (numBatches (l.length - B) B)).map
            (batchSlice l B ∘ Nat.succ)
            = (List.range (numBatches (l.length - B) B)).map
              (batchSlice (l.drop B) B) := by
          apply List.map_congr_left
          intro i _
          show batchSlice l B (i + 1) = batchSlice (l.drop B) B i
          exact batchSlice_succ l B i hBle
        rw [hmap]
        have hlen : (l.drop B).length = l.length - B := by
          rw [List.length_drop]
        rw [← hlen]
        rw [ih (l.drop B) (by omega)]
        rw [batchSlice_zero]
        have hm : min B l.length = B := by omega
        rw [hm]
        exact List.take_append_drop B l

/-- `num_batches` is the ceiling of `N / B`: the least multiple of `B`
reaching `N` is `B * numBatches`. -/
theorem numBatches_bounds (N B : Nat) (hB : 0 < B) :
    N ≤ B * numBatches N B ∧ B * numBatches N B < N + B := by
  have hdm := Nat.div_add_mod (N + B - 1) B
  have hlt : (N + B - 1) % B < B := Nat.mod_lt _ hB
  show N ≤ B * ((N + B - 1) / B) ∧ B * ((N + B - 1) / B) < N + B
  generalize hx : B * ((N + B - 1) / B) = x at hdm ⊢
  omega

/-- Arithmetic of the final batch: its index range has size `N mod B`,
or `B` when `B` divides `N`. -/
theorem last_size_arith (N B : Nat) (hB : 0 < B) (hN : 0 < N) :
    N - (numBatches N B - 1) * B = if N % B = 0 then B else N % B := by
  obtain ⟨nb, hnb⟩ : ∃ x, numBatches N B = x := ⟨_, rfl⟩
  have hb := numBatches_bounds N B hB
  rw [hnb] at hb ⊢
  have hqr := Nat.div_add_mod N B
  have hrB : N % B < B := Nat.mod_lt _ hB
  obtain ⟨q, hq⟩ : ∃ x, N / B = x := ⟨_, rfl⟩
  obtain ⟨r, hr⟩ : ∃ x, N % B = x := ⟨_, rfl⟩
  rw [hq, hr] at hqr
  rw [hr] at hrB ⊢
  have hnb1 : 1 ≤ nb := by
    rcases Nat.eq_zero_or_pos nb with hz | h1
    · subst hz; simp at hb; omega
    · exact h1
  obtain ⟨m, rfl⟩ : ∃ m, nb = m + 1 := ⟨nb - 1, by omega⟩
  simp only [Nat.add_sub_cancel]
  by_cases hr0 : r = 0
  · have em : B * (m + 1) = B * m + B := by ring
    have eq1 : B * (q + 1) = B * q + B := by ring
    have hq_le : q ≤ m + 1 :=
      Nat.le_of_mul_le_mul_left (by omega : B * q ≤ B * (m + 1)) hB
    have hlt2 : m + 1 < q + 1 :=
      Nat.lt_of_mul_lt_mul_left (by omega : B * (m + 1) < B * (q + 1))
    have hqm : q = m + 1 := by omega
    subst hqm
    have hc : m * B = B * m := Nat.mul_comm m B
    simp only [hr0, if_true]
    omega
  · have em : B * (m + 1) = B * m + B := by ring
    have eq1 : B * (q + 1) = B * q + B := by ring
    have h1 : q < m + 1 :=
      Nat.lt_of_mul_lt_mul_left (by omega : B * q < B * (m + 1))
    have h3 : m < q + 1 :=
      Nat.lt_of_mul_lt_mul_left (by omega : B * m < B * (q + 1))
    have hqm : q = m := by omega
    subst hqm
    have hc : q * B = B * q := Nat.mul_comm q B
    simp only [hr0, if_false]
    omega

/-- C4: for every identifier list of length `N` and batch size `B > 0`
the coordinator plans exactly `ceil(N/B)` batches (characterised by
`N ≤ B*numBatches < N + B`); the batch slices, taken in order of their
1-based sequence numbers, concatenate back to the whole identifier list
(no gaps, no overlaps); slice `i` covers the half-open index range
`[i*B, min((i+1)*B, N))`; and the final batch has `N mod B` identifiers,
or `B` when `B` divides `N`. -/
theorem batch_partition :
    ∀ (urls : List Url) (B : Nat), 0 < B →
      (urls.length ≤ B * numBatches urls.length B ∧
        B * numBatches urls.length B < urls.length + B) ∧
      ((List.range (numBatches urls.length B)).map (batchSlice urls B)).flatten
        = urls ∧
      (∀ i, (batchSlice urls B i).length =
        min ((i + 1) * B) urls.length - i * B) ∧
      (0 < urls.length →
        (batchSlice urls B (numBatches urls.length B - 1)).length =
          if urls.length % B = 0 then B else urls.length % B) := by
  intro urls B hB
  refine ⟨numBatches_bounds urls.length B hB,
    flatten_slices B hB urls.length urls le_rfl,
    fun i => batchSlice_length urls B i, fun hN => ?_⟩
  rw [batchSlice_length]
  have hlast := last_size_arith urls.length B hB hN
  have hb := numBatches_bounds urls.length B hB
  obtain ⟨nb, hnbe⟩ : ∃ x, numBatches urls.length B = x := ⟨_, rfl⟩
  rw [hnbe] at hb hlast ⊢
  have hnb1 : 1 ≤ nb := by
    by_contra hcon
    have hz : nb = 0 := by omega
    rw [hz, Nat.mul_zero] at hb
    omega
  have hsucc2 : nb - 1 + 1 = nb := by omega
  rw [hsucc2]
  have hc : nb * B = B * nb := Nat.mul_comm nb B
  have hmin : min (nb * B) urls.length = urls.length := by omega
  rw [hmin]
  exact hlast

/-- Witness for C4 on three identifiers with batch size 2: two batches,
slices `[a, b]` and `[c]`, final batch of size `3 mod 2 = 1`. -/
theorem batch_partition_witness :
    ((List.length ["a", "b", "c"] ≤ 2 * numBatches (List.length ["a", "b", "c"]) 2 ∧
      2 * numBatches (List.length ["a", "b", "c"]) 2 < List.length ["a", "b", "c"] + 2) ∧
     ((List.range (numBatches (List.length ["a", "b", "c"]) 2)).map
        (batchSlice ["a", "b", "c"] 2)).flatten = ["a", "b", "c"] ∧
     (∀ i, (batchSlice ["a", "b", "c"] 2 i).length =
        min ((i + 1) * 2) (List.length ["a", "b", "c"]) - i * 2) ∧
     (0 < List.length ["a", "b", "c"] →
       (batchSlice ["a", "b", "c"] 2
          (numBatches (List.length ["a", "b", "c"]) 2 - 1)).length =
         if List.length ["a", "b", "c"] % 2 = 0 then 2
         else List.length ["a", "b", "c"] % 2)) :=
  batch_partition ["a", "b", "c"] 2 (by decide)

/-- Whatever the completion order of the tasks, `gather` reassembles the
results in task order: position `i` carries task `i`'s value. -/
theorem gather_eq (results : List (Option Doc))
    (comp : List (Nat × Option Doc)) (hperm : comp.Perm results.enum) :
    gather results.length comp = results.map some := by
  unfold gather
  apply List.ext_getElem
  · simp
  · intro i h1 h2
    rw [List.getElem_map, List.getElem_range, List.getElem_map]
    have hi : i < results.length := by simpa using h2
    have hfind : comp.find? (fun p => p.1 == i) = some (i, results[i]) := by
      have hmem : (i, results[i]) ∈ results.enum := by
        rw [List.mk_mem_enum_iff_getElem?]
        exact List.getElem?_eq_getElem hi
      have hmemc : (i, results[i]) ∈ comp := hperm.mem_iff.mpr hmem
      rcases hf : comp.find? (fun p => p.1 == i) with _ | p
      · exfalso
        have hnone := List.find?_eq_none.mp hf (i, results[i]) hmemc
        simp at hnone
      · have hkey : p.1 = i := by
          have := List.find?_some hf
          simpa using this
        have hpc : p ∈ comp := List.mem_of_find?_eq_some hf
        have hpe : p ∈ results.enum := hperm.mem_iff.mp hpc
        have hval : results[p.1]? = some p.2 := by
          rw [← List.mk_mem_enum_iff_getElem?]
          exact hpe
        rw [hkey] at hval
        rw [List.getElem?_eq_getElem hi] at hval
        have hpeq : p = (i, results[i]) := by
          rcases p with ⟨p1, p2⟩
          simp only at hkey
          simp only [Option.some.injEq] at hval
          simp [hkey, ← hval]
        rw [hf]
        exact congrArg some hpeq
    rw [hfind]
    rfl

/-- C7: within a batch, the collected result has one entry per
identifier, positioned in input order whatever the completion order of
the underlying network tasks (`gather` of any permutation of the
completed tasks equals the in-order result list), and the persisted
rows are exactly the successes in input order, so their count is at
most the batch's identifier count. -/
theorem batch_order_preserved :
    ∀ (net : Url → Nat → HttpResult) (urls : List Url)
      (comp : List (Nat × Option Doc)) (n : Nat) (fs : FS),
      comp.Perm ((fetch_batch net urls).1.enum) →
      gather urls.length comp = (fetch_batch net urls).1.map some ∧
      (∀ rows, (save_batch (fetch_batch net urls).1 n fs).2 = some rows →
        rows = (fetch_batch net urls).1.filterMap id ∧
        rows.length ≤ urls.length) := by
  intro net urls comp n fs hperm
  have hlen : (fetch_batch net urls).1.length = urls.length := by
    simp [fetch_batch]
  constructor
  · rw [← hlen]
    exact gather_eq _ comp hperm
  · intro rows hrows
    have hr := save_batch_rows_eq _ n fs rows hrows
    refine ⟨hr, ?_⟩
    rw [hr, ← hlen]
    exact List.length_filterMap_le id _

/-- Witness for C7: two identifiers whose tasks complete in reverse
order still gather into input order. -/
theorem batch_order_preserved_witness :
    gather (List.length ["a", "b"])
        (((fetch_batch netOK ["a", "b"]).1.enum).reverse)
      = (fetch_batch netOK ["a", "b"]).1.map some :=
  (batch_order_preserved netOK ["a", "b"]
    (((fetch_batch netOK ["a", "b"]).1.enum).reverse) 1 emptyFS
    (List.reverse_perm _)).1

/-- A task with an active network call necessarily holds a permit, so at
any instant the active calls are at most the held permits. -/
theorem activeCalls_le_holders : ∀ ts : List Task,
    activeCalls ts ≤ holders ts := by
  intro ts
  induction ts with
  | nil => exact Nat.le_refl 0
  | cons t rest ih =>
    unfold activeCalls holders at ih ⊢
    rw [List.countP_cons, List.countP_cons]
    by_cases hc : isInCall t
    · have hh : isHolding t = true := by
        rcases t with ⟨p, r⟩
        cases p <;> simp_all [isInCall, isHolding]
      rw [hc, hh]
      simpa using ih
    · simp only [Bool.not_eq_true] at hc
      rw [hc]
      simp only [Bool.false_eq_true, if_false, Nat.add_zero]
      by_cases hh : isHolding t <;> simp [hh] <;> omega

/-- One scheduler step never pushes the number of held permits above the
semaphore capacity: an acquire is guarded by the capacity check, and
every other event leaves the count unchanged or decrements it. -/
theorem holders_le_step {C : Nat} {s s2 : List Task}
    (h : SchedStep C s s2) (hle : holders s ≤ C) : holders s2 ≤ C := by
  rcases h with ⟨pre, post, p, e, r, q, hq, hacq⟩
  unfold holders at hle ⊢
  rw [List.countP_append, List.countP_cons] at hle ⊢
  cases e with
  | acquire =>
    cases p with
    | outside =>
      injection hq with h2
      subst h2
      have hguard := hacq rfl
      unfold holders at hguard
      rw [List.countP_append, List.countP_cons] at hguard
      simp [isHolding] at hguard hle ⊢
      omega
    | holding => exact absurd hq (by simp [stepPhase])
    | inCall => exact absurd hq (by simp [stepPhase])
  | callStart =>
    cases p with
    | outside => exact absurd hq (by simp [stepPhase])
    | holding =>
      injection hq with h2
      subst h2
      simp [isHolding] at hle ⊢
      try omega
    | inCall => exact absurd hq (by simp [stepPhase])
  | callEnd =>
    cases p with
    | outside => exact absurd hq (by simp [stepPhase])
    | holding => exact absurd hq (by simp [stepPhase])
    | inCall =>
      injection hq with h2
      subst h2
      simp [isHolding] at hle ⊢
      try omega
  | release =>
    cases p with
    | outside => exact absurd hq (by simp [stepPhase])
    | holding =>
      injection hq with h2
      subst h2
      simp [isHolding] at hle ⊢
      try omega
    | inCall => exact absurd hq (by simp [stepPhase])
  | sleep n =>
    cases p with
    | outside =>
      injection hq with h2
      subst h2
      simp [isHolding] at hle ⊢
      try omega
    | holding => exact absurd hq (by simp [stepPhase])
    | inCall => exact absurd hq (by simp [stepPhase])

/-- The permit bound is invariant along every scheduler run. -/
theorem holders_le_reach {C : Nat} {s s2 : List Task}
    (h : Relation.ReflTransGen (SchedStep C) s s2) (h0 : holders s ≤ C) :
    holders s2 ≤ C := by
  induction h with
  | refl => exact h0
  | tail _ hstep ih => exact holders_le_step hstep ih

/-- No permit is held at batch start. -/
theorem holders_init (traces : List (List Ev)) :
    holders (initTasks traces) = 0 := by
  unfold holders initTasks
  rw [List.countP_eq_zero]
  intro t ht
  obtain ⟨tr, _, rfl⟩ := List.mem_map.mp ht
  simp [isHolding]

/-- The event trace of `fetch_with_retry` is well formed from the
no-permit phase: every network call starts only between an acquire and
its release, and every backoff sleep happens while no permit is held. -/
theorem wf_retryTrace (ok : Nat → Bool) (retries : Nat) :
    wfB Phase.outside (retryTrace ok retries) = true := by
  unfold retryTrace
  generalize List.range retries = l
  induction l with
  | nil => rfl
  | cons a t ih =>
    rw [retryTraceLoop]
    by_cases hok : ok a
    · simp [attemptEvents, wfB, stepPhase, hok]
    · by_cases hlt : a < retries - 1
      · simp [attemptEvents, wfB, stepPhase, hok, hlt, ih]
      · simp [attemptEvents, wfB, stepPhase, hok, hlt, ih]

/-- C9: with the semaphore capacity of 50, in every state reachable by
any interleaving of the batch's tasks, at most 50 network calls are
active at once — each attempt acquires a permit before its call and
releases it after (`stepPhase` admits `callStart` only while holding),
and the semaphore blocks an acquire when 50 permits are held.
Moreover the retry traces are well formed from the no-permit phase:
backoff sleeps are legal only outside an acquire/release section, so a
permit is never held during backoff, and `initTasks` starts every task
of a batch outside, the semaphore being created fresh per batch. -/
theorem semaphore_bound :
    ∀ (traces : List (List Ev)) (s : List Task),
      Relation.ReflTransGen (SchedStep MAX_CONCURRENT_REQUESTS)
        (initTasks traces) s →
      activeCalls s ≤ MAX_CONCURRENT_REQUESTS ∧
      (∀ ok retries, wfB Phase.outside (retryTrace ok retries) = true) := by
  intro traces s hreach
  refine ⟨?_, fun ok retries => wf_retryTrace ok retries⟩
  have h0 : holders (initTasks traces) = 0 := holders_init traces
  have hH : holders s ≤ MAX_CONCURRENT_REQUESTS :=
    holders_le_reach hreach (by rw [h0]; exact Nat.zero_le _)
  exact Nat.le_trans (activeCalls_le_holders s) hH

/-- Witness for C9 at the initial state of a one-task batch. -/
theorem semaphore_bound_witness :
    activeCalls (initTasks [retryTrace (fun _ => false) 3])
        ≤ MAX_CONCURRENT_REQUESTS ∧
    (∀ ok retries, wfB Phase.outside (retryTrace ok retries) = true) :=
  semaphore_bound [retryTrace (fun _ => false) 3] _
    Relation.ReflTransGen.refl

end Louvre
